import Mathlib

/-!
Verification of the unified remote/local file-access layer
(`HTTPFileSystem` and friends).

JavaScript strings are modelled as `List Char` (`Str`); byte buffers as
`List Nat`.  External library functions (pako's `inflate`, the natural-sort
comparator, the worker's glob matcher) are taken as parameters of the
definitions that call them, since they are third-party dependencies, not code
of this repository.  Everything else is translated line by line from the
source.
-/

deriving instance DecidableEq for Except

/-- JavaScript strings are modelled as lists of characters. -/
abbrev Str := List Char

/-- Build a `Str` from a Lean string literal. -/
def str (s : String) : Str := s.toList

/-- Fuel-driven worker for `replaceAllL`.  One unit of fuel is spent per
emitted chunk, and each step consumes at least one input character, so fuel
equal to the input length always suffices. -/
def replaceAllFuel (pat repl : Str) : Nat → Str → Str
  | 0, l => l
  | _ + 1, [] => []
  | n + 1, c :: rest =>
    if pat.isPrefixOf (c :: rest) then
      repl ++ replaceAllFuel pat repl n (List.drop (pat.length - 1) rest)
    else
      c :: replaceAllFuel pat repl n rest

/-- JavaScript `String.prototype.replaceAll` with a string pattern:
left-to-right, non-overlapping replacement of every occurrence. -/
def replaceAllL (pat repl : Str) (l : Str) : Str :=
  replaceAllFuel pat repl l.length l

/-- JavaScript `String.prototype.replace` with a non-global string pattern:
replaces only the first occurrence. -/
def replaceFirstL (pat repl : Str) : Str → Str
  | [] => []
  | c :: rest =>
    if pat.isPrefixOf (c :: rest) then
      repl ++ List.drop (pat.length - 1) rest
    else
      c :: replaceFirstL pat repl rest

/-- JavaScript `String.prototype.split` with a single-character separator
(empty segments are preserved, as in JS). -/
def splitOnChar (sep : Char) : Str → List Str
  | [] => [[]]
  | c :: rest =>
    let r := splitOnChar sep rest
    if c = sep then [] :: r else (c :: r.headD []) :: r.tail

/-- Index of the first occurrence of `pat` as a substring (JS `indexOf`,
with `none` standing for `-1`). -/
def idxOfSubstr (pat : Str) : Str → Option Nat
  | [] => if pat = [] then some 0 else none
  | c :: rest =>
    if pat.isPrefixOf (c :: rest) then some 0
    else (idxOfSubstr pat rest).map (· + 1)

/-- JS `s.indexOf(pat) > -1`. -/
def containsSubstr (pat l : Str) : Bool :=
  (idxOfSubstr pat l).isSome

/-- Split at the first occurrence of `sep`: returns the part before it and
the part after it. -/
def splitFirst (sep : Str) : Str → Option (Str × Str)
  | [] => if sep = [] then some ([], []) else none
  | c :: rest =>
    if sep.isPrefixOf (c :: rest) then
      some ([], List.drop (sep.length - 1) rest)
    else
      (splitFirst sep rest).map (fun p => (c :: p.1, p.2))

/-- JS `array.lastIndexOf`-style search for the last occurrence of a
single character (`none` for `-1`). -/
def lastIdxOfChar (c : Char) (l : Str) : Option Nat :=
  ((l.enum.filter (fun p => p.2 = c)).map Prod.fst).getLast?

/-- JS `s.lastIndexOf(pat)` for a substring pattern (`none` for `-1`). -/
def lastIdxOfSubstr (pat : Str) (l : Str) : Option Nat :=
  ((List.range (l.length + 1)).filter (fun i => pat.isPrefixOf (l.drop i))).getLast?

/-- `toLocaleLowerCase`, modelled character-wise with `Char.toLower`. -/
def toLowerStr (l : Str) : Str := l.map Char.toLower

/-- The suffix of `l` after the last occurrence of `sep` (the whole of `l`
when `sep` does not occur).  This is JS `s.slice(1 + s.lastIndexOf(sep))`. -/
def afterLast (sep : Char) (l : Str) : Str :=
  (l.reverse.takeWhile (fun c => c ≠ sep)).reverse

/-- The normalized result of listing a directory (`DirectoryEntry` from
`Globals`): file names, directory names and a name-to-native-handle map.
The handle type is a parameter because only the local-handle backend
populates it. -/
structure DirectoryEntry (H : Type) where
  files : List Str
  dirs : List Str
  handles : List (Str × H)
deriving DecidableEq

/-- The per-slug slice of the global `CACHE` object: maps a directory key to
its cached listing.  JS object assignment is modelled by prepending (the
lookup takes the most recent binding). -/
abbrev Cache (H : Type) := List (Str × DirectoryEntry H)

/-- Lookup in a cache partition (`CACHE[this.urlId][stillScaryPath]`). -/
def lookupCache {H : Type} : Cache H → Str → Option (DirectoryEntry H)
  | [], _ => none
  | (k, v) :: rest, key => if k = key then some v else lookupCache rest key

/-- The first normalization step of `getDirectory`: collapse duplicate
separators (one `replaceAll` pass) and force a trailing separator. -/
def normSlash (scaryPath : Str) : Str :=
  let p := replaceAllL (str "//") (str "/") scaryPath
  if p.getLast? = some '/' then p else p ++ [ '/' ]

/-- The second normalization step of `getDirectory`, applied only after the
cache lookup: collapse `/./` segments (one `replaceAll` pass). -/
def collapseDotKey (p : Str) : Str :=
  replaceAllL (str "/./") (str "/") p

/-- `HTTPFileSystem.getDirectory`, with the backend adapter dispatch
(`getDirectoryFromHandle` / `_getDirectoryFromGitHub` / `_getDirectoryFromAWS`
/ `getDirectoryFromURL`) abstracted as `backend` and the external
`javascript-natural-sort` comparator abstracted as the list sorter `sortFn`.
Returns the call's outcome, the cache partition after the call, and whether a
backend fetch was performed.  Errors are modelled as the JS string conversion
of the thrown value, so `throw Error('' + e)` yields an error whose string
form is `"Error: " ++ e`. -/
def getDirectory {H : Type} (backend : Str → Except Str (DirectoryEntry H))
    (sortFn : List Str → List Str) (cache : Cache H) (scaryPath : Str) :
    Except Str (DirectoryEntry H) × Cache H × Bool :=
  let stillScaryPath := normSlash scaryPath
  match lookupCache cache stillScaryPath with
  | some cachedEntry => (.ok cachedEntry, cache, false)
  | none =>
    let key := collapseDotKey stillScaryPath
    match backend key with
    | .error e => (.error (str "Error: " ++ e), cache, true)
    | .ok dirEntry =>
      let sorted : DirectoryEntry H :=
        { dirEntry with dirs := sortFn dirEntry.dirs, files := sortFn dirEntry.files }
      (.ok sorted, (key, sorted) :: cache, true)

/-- The source's sanitizing regex (anchored `^`, flag `i`, written without
any character-class brackets or negation) matches only the *literal* twelve
characters digit zero, dash, `9`, `a`, dash, `z`, `A`, dash, `Z`,
underscore, dash, slash — letters case-insensitively — followed by one or
more colons.  These are those twelve literal characters. -/
def scaryLitPrefix : Str := str "0-9a-zA-Z_-/"

/-- The `scaryPath.replace(..., '')` call of `cleanURL` as the source wrote
it: remove the literal prefix `scaryLitPrefix` (case-insensitive) plus a
greedy run of at least one colon; otherwise leave the path untouched. -/
def stripScary (p : Str) : Str :=
  if decide (12 ≤ p.length) &&
      (List.zipWith (fun a b => a.toLower == b.toLower) (p.take 12) scaryLitPrefix).all id &&
      ((p.drop 12).head? == some ':')
  then (p.drop 12).dropWhile (fun c => c = ':')
  else p

/-- `cleanURL` up to (and excluding) the final `new URL(path).href`
canonicalization: the broken prefix strip, the base-URL join, two duplicate
separator collapses, and the protocol repairs. -/
def cleanURLpre (baseUrl scaryPath : Str) : Str :=
  let path := baseUrl ++ stripScary scaryPath
  let path := replaceAllL (str "//") (str "/") path
  let path := replaceAllL (str "//") (str "/") path
  let path := replaceFirstL (str "https:/") (str "https://") path
  let path := replaceFirstL (str "http:/") (str "http://") path
  path

/-- Fuel-driven worker for `eatDots`.  Each recursive call of the source
removes two list elements, so fuel equal to the list length always
suffices. -/
def eatDotsFuel : Nat → List Str → List Str
  | 0, parts => parts
  | n + 1, parts =>
    let dotdot := parts.indexOf (str "..")
    if dotdot = 0 ∨ parts.length ≤ dotdot then parts
    else
      let spliced :=
        (parts.enum.filter (fun p => p.1 ≠ dotdot - 1 ∧ p.1 ≠ dotdot)).map Prod.snd
      eatDotsFuel n spliced

/-- The inner `eatDots` function of `getDirectoryFromHandle`: find the first
`..` segment; if it is absent (JS `indexOf` returns `-1`) or at index `0`
stop; otherwise splice out that segment and the one before it and recurse.
`List.indexOf` returns the length when the element is absent, which the
`parts.length ≤ dotdot` disjunct maps to the JS `dotdot <= 0` test for
`-1`. -/
def eatDots (parts : List Str) : List Str :=
  eatDotsFuel parts.length parts

/-- The recursive `gUnzip` with pako's `inflate` as a parameter and explicit
fuel: the source recursion has no cap, so fuel at least the number of gzip
layers reproduces every terminating run.  A buffer is a list of byte
values; the gzip magic number is `0x1f 0x8b`. -/
def gUnzipFuel (inflate : List Nat → List Nat) : Nat → List Nat → List Nat
  | 0, buffer => buffer
  | n + 1, buffer =>
    match buffer with
    | 31 :: 139 :: _ => gUnzipFuel inflate n (inflate buffer)
    | _ => buffer

/-- The extensions of the `BINARIES` regex
(`avro|dbf|gpkg|gz|h5|jpg|jpeg|omx|png|shp|shx|sqlite|zip|zst`). -/
def BINARY_EXTS : List Str :=
  [str "avro", str "dbf", str "gpkg", str "gz", str "h5", str "jpg", str "jpeg",
   str "omx", str "png", str "shp", str "shx", str "sqlite", str "zip", str "zst"]

/-- `BINARIES.test(lp)`: the regex is `.*` then a literal dot then one of the
extensions, then `$`; since `test` is unanchored at the start and `.*` may be
empty, it holds exactly when the string ends with a dot followed by one of
the extensions. -/
def binariesTest (lp : Str) : Bool :=
  BINARY_EXTS.any (fun e => List.isSuffixOf ('.' :: e) lp)

/-- The decoded content a GitHub file read produces: raw bytes for binary
extensions, UTF-8 decoded text otherwise. -/
inductive GHContent where
  | bytes : List Nat → GHContent
  | text : Str → GHContent
deriving DecidableEq

/-- The `json.encoding == 'base64'` branch of `_getFileFromGitHub`: the
browser's `atob`-decoded bytes `binaryString` are kept raw when
`BINARIES.test(scaryPath.toLocaleLowerCase())` holds, and otherwise run
through `new TextDecoder().decode` (abstracted as `utf8Decode`, a browser
builtin). -/
def githubClassifyBase64 (utf8Decode : List Nat → Str) (scaryPath : Str)
    (binaryString : List Nat) : GHContent :=
  if binariesTest (toLowerStr scaryPath) then .bytes binaryString
  else .text (utf8Decode binaryString)

/-- Follows the spec's words, for the refinement in C6: the requested path's
*filename* (text after the last separator), its *extension* (text after the
last dot of the filename, provided the filename contains a dot). -/
def spec_extensionOfPath (path : Str) : Option Str :=
  let fname := afterLast '/' path
  if '.' ∈ fname then some (afterLast '.' fname) else none

/-- Follows the spec's words: classification of a path as binary by
case-insensitive membership of its filename extension in the fixed set. -/
def spec_isBinaryByExtension (path : Str) : Bool :=
  match spec_extensionOfPath (toLowerStr path) with
  | some e => BINARY_EXTS.contains e
  | none => false

/-- The two recognized config folder spellings (`YAML_FOLDERS`). -/
def YAML_FOLDERS : List Str := [str "simwrapper", str ".simwrapper"]

/-- Micromatch semantics, modelled from the library's documented behavior for
the constant patterns of `findAllYamlConfigs`: `pre` then `*` (any run of
non-separator characters) then `suf`. -/
def globStarMatch (pre suf f : Str) : Bool :=
  pre.isPrefixOf f && List.isSuffixOf suf f && decide (pre.length + suf.length ≤ f.length) &&
    ((f.drop pre.length).take (f.length - pre.length - suf.length)).all (fun c => c ≠ '/')

/-- The pattern `dashboard*.y?(a)ml`. -/
def isDashboardYaml (f : Str) : Bool :=
  globStarMatch (str "dashboard") (str ".yml") f || globStarMatch (str "dashboard") (str ".yaml") f

/-- The pattern `(topsheet|table)*.y?(a)ml`. -/
def isTopsheetYaml (f : Str) : Bool :=
  globStarMatch (str "topsheet") (str ".yml") f || globStarMatch (str "topsheet") (str ".yaml") f ||
  globStarMatch (str "table") (str ".yml") f || globStarMatch (str "table") (str ".yaml") f

/-- The pattern `viz*.y?(a)ml`. -/
def isVizYaml (f : Str) : Bool :=
  globStarMatch (str "viz") (str ".yml") f || globStarMatch (str "viz") (str ".yaml") f

/-- The pattern `simwrapper-config.y?(a)ml` (no wildcard: an exact name). -/
def isConfigYaml (f : Str) : Bool :=
  f == str "simwrapper-config.yml" || f == str "simwrapper-config.yaml"

/-- `micromatch.match(files, pattern)`: the members of `files` satisfying the
pattern, in order. -/
def mmMatch (files : List Str) (pat : Str → Bool) : List Str :=
  files.filter pat

/-- One of the four name-to-path mappings of `YamlConfigs`, as a JS object:
ordered key/value pairs with assignment overwriting in place or appending. -/
abbrev YamlMap := List (Str × Str)

/-- JS object property read `m[k]`. -/
def getKey (m : YamlMap) (k : Str) : Option Str :=
  (m.find? (fun p => p.1 == k)).map Prod.snd

/-- JS object property assignment `m[k] = v`. -/
def setKey (m : YamlMap) (k v : Str) : YamlMap :=
  if (m.find? (fun p => p.1 == k)).isSome
  then m.map (fun p => if p.1 == k then (p.1, v) else p)
  else m ++ [(k, v)]

/-- The `YamlConfigs` result record. -/
structure YamlConfigs where
  dashboards : YamlMap
  topsheets : YamlMap
  vizes : YamlMap
  configs : YamlMap
deriving DecidableEq

/-- Record every match of `pat` among `files` into `m`, keyed by filename,
with value `${configFolder}/${yaml}` collapsed (`replaceAll('//', '/')`). -/
def assignMatches (configFolder : Str) (files : List Str) (pat : Str → Bool)
    (m : YamlMap) : YamlMap :=
  (mmMatch files pat).foldl
    (fun m yaml => setKey m yaml (replaceAllL (str "//") (str "/") (configFolder ++ '/' :: yaml)))
    m

/-- One iteration of the ancestor loop of `findAllYamlConfigs`: extend the
current path by the next chunk (collapsing duplicate separators) and append
the recognized config subfolders of the extended path to the accumulator,
swallowing a listing failure (the `try/catch` of the source). -/
def findConfigStep (getDirF : Str → Except Str (DirectoryEntry Unit))
    (st : Str × List Str) (chunk : Str) : Str × List Str :=
  let currentPath := replaceAllL (str "//") (str "/") (st.1 ++ chunk ++ [ '/' ])
  match getDirF currentPath with
  | .ok de =>
    (currentPath,
      st.2 ++ de.dirs.filterMap (fun dir =>
        if YAML_FOLDERS.contains (toLowerStr dir)
        then some (replaceAllL (str "//") (str "/") (currentPath ++ '/' :: dir))
        else none))
  | .error _ => (currentPath, st.2)

/-- The first half of `findAllYamlConfigs`: walk the ancestor chunks of the
target folder collecting `simwrapper`-named subfolders (listing failures
swallowed), then append the target folder itself as the final candidate.
`getDirF` stands for `this.getDirectory` (deterministic for a fixed backend
and cache state). -/
def findConfigFolders (getDirF : Str → Except Str (DirectoryEntry Unit)) (folder : Str) :
    List Str :=
  let fullFolder := if folder.head? = some '/' then folder else '/' :: folder
  let pathChunks := splitOnChar '/' fullFolder
  ((pathChunks.take (pathChunks.length - 1)).foldl (findConfigStep getDirF)
    (str "/", [])).2 ++ [folder]

/-- The successive normalized paths the ancestor loop visits when started
from `currentPath`: each chunk extends the path by `chunk` plus a
separator (duplicate separators collapsed), in the order the chunks occur
in the folder path — from the root downward. -/
def walkPaths (currentPath : Str) : List Str → List Str
  | [] => []
  | chunk :: rest =>
    let next := replaceAllL (str "//") (str "/") (currentPath ++ chunk ++ [ '/' ])
    next :: walkPaths next rest

/-- The ancestor prefixes of the target folder scanned by
`findAllYamlConfigs`, in root-to-leaf order: the walk over every chunk of
the root-anchored folder path except the last, starting at the root
path. -/
def ancestorPaths (folder : Str) : List Str :=
  let fullFolder := if folder.head? = some '/' then folder else '/' :: folder
  let pathChunks := splitOnChar '/' fullFolder
  walkPaths (str "/") (pathChunks.take (pathChunks.length - 1))

/-- The config-folder candidates a single ancestor contributes: its
subdirectories whose lowercased name is a recognized config-folder
spelling, resolved against the ancestor path; a swallowed listing failure
contributes nothing. -/
def configFoldersAt (getDirF : Str → Except Str (DirectoryEntry Unit))
    (currentPath : Str) : List Str :=
  match getDirF currentPath with
  | .ok de =>
    de.dirs.filterMap (fun dir =>
      if YAML_FOLDERS.contains (toLowerStr dir)
      then some (replaceAllL (str "//") (str "/") (currentPath ++ '/' :: dir))
      else none)
  | .error _ => []

/-- The value the processing loop of `findAllYamlConfigs` leaves under key
`f` for one filename pattern after scanning the candidate folders in
order: the resolved path contributed by the *last* folder whose listing
contains a match for `f` (later folders take priority, via `Option.or`),
and `none` when no scanned folder matches. -/
def lastAssigned (getDirF : Str → Except Str (DirectoryEntry Unit))
    (pat : Str → Bool) (f : Str) : List Str → Option Str
  | [] => none
  | cf :: rest =>
    Option.or (lastAssigned getDirF pat f rest)
      (match getDirF cf with
       | .ok de =>
         if f ∈ mmMatch de.files pat
         then some (replaceAllL (str "//") (str "/") (cf ++ '/' :: f))
         else none
       | .error _ => none)

/-- Process one candidate config folder of `findAllYamlConfigs`: list it (a
failure here propagates — the second loop has no try/catch) and record the
matches of the four patterns. -/
def processConfigFolder (getDirF : Str → Except Str (DirectoryEntry Unit))
    (yamls : YamlConfigs) (configFolder : Str) : Except Str YamlConfigs :=
  match getDirF configFolder with
  | .error e => .error e
  | .ok de =>
    .ok { dashboards := assignMatches configFolder de.files isDashboardYaml yamls.dashboards
          topsheets := assignMatches configFolder de.files isTopsheetYaml yamls.topsheets
          vizes := assignMatches configFolder de.files isVizYaml yamls.vizes
          configs := assignMatches configFolder de.files isConfigYaml yamls.configs }

/-- `findAllYamlConfigs`, with `this.getDirectory` abstracted as `getDirF`. -/
def findAllYamlConfigs (getDirF : Str → Except Str (DirectoryEntry Unit)) (folder : Str) :
    Except Str YamlConfigs :=
  (findConfigFolders getDirF folder).foldlM (processConfigFolder getDirF)
    ⟨[], [], [], []⟩

/-- Leftmost match of a lazy capture between the literal delimiters `op` and
`cl` (the shape of the listing regexes): the first position where `op`
occurs and `cl` occurs somewhere after it; the capture is everything strictly
between `op` and the first following `cl`. -/
def firstMatchBetween (op cl : Str) : Str → Option Str
  | [] => none
  | c :: rest =>
    if op.isPrefixOf (c :: rest) then
      match splitFirst cl (List.drop (op.length - 1) rest) with
      | some (before, _) => some before
      | none => firstMatchBetween op cl rest
    else firstMatchBetween op cl rest

/-- The shared tail of every line-scraping parser: names ending in a
separator are directories (one trailing separator stripped), the rest are
files, in encounter order. -/
def classifyEntries (names : List Str) : DirectoryEntry Unit :=
  { dirs := (names.filter (fun n => n.getLast? == some '/')).map List.dropLast,
    files := names.filter (fun n => !(n.getLast? == some '/')),
    handles := [] }

/-- One line of `buildListFromSimpleWebServer`: require the
`<li><a href="` marker, then capture the full-line regex between `">` and
`</a`. -/
def swsLineName (line : Str) : Option Str :=
  if containsSubstr (str "<li><a href=\"") line then
    firstMatchBetween (str "\">") (str "</a") line
  else none

/-- `buildListFromSimpleWebServer`. -/
def buildListFromSimpleWebServer (data : Str) : DirectoryEntry Unit :=
  classifyEntries ((splitOnChar '\n' data).filterMap swsLineName)

/-- One line of `buildListFromSVN`: require the `<li><a href="` marker,
capture the first quoted substring of the whole line, skip `../`, strip a
leading `./`. -/
def svnLineName (line : Str) : Option Str :=
  if containsSubstr (str "<li><a href=\"") line then
    match firstMatchBetween (str "\"") (str "\"") line with
    | none => none
    | some name =>
      if name == str "../" then none
      else if (str "./").isPrefixOf name then some (name.drop 2) else some name
  else none

/-- `buildListFromSVN`. -/
def buildListFromSVN (data : Str) : DirectoryEntry Unit :=
  classifyEntries ((splitOnChar '\n' data).filterMap svnLineName)

/-- Fuel-driven worker for `splitOnSubstr`; each split consumes at least the
separator, so fuel equal to the input length suffices. -/
def splitOnSubstrFuel (sep : Str) : Nat → Str → List Str
  | 0, l => [l]
  | n + 1, l =>
    match splitFirst sep l with
    | none => [l]
    | some (a, rest) => a :: splitOnSubstrFuel sep n rest

/-- JS `String.prototype.split` with a (non-empty) string separator. -/
def splitOnSubstr (sep l : Str) : List Str :=
  splitOnSubstrFuel sep l.length l

/-- The line preprocessing of `buildListFromNpxServe`:
`data.split('</li>').map(line => line.slice(line.lastIndexOf('<li')))`; a
missing marker makes `lastIndexOf` return `-1` and `slice(-1)` keeps only
the final character. -/
def npxLines (data : Str) : List Str :=
  (splitOnSubstr (str "</li>") data).map (fun line =>
    match lastIdxOfSubstr (str "<li") line with
    | some i => line.drop i
    | none => line.drop (line.length - 1))

/-- One preprocessed line of `buildListFromNpxServe`: the `<li> <a href="`
marker must occur at index at most 512, the first quoted substring is the
name, `&#47;` entities become separators, and `/` and `../` entries are
skipped. -/
def npxLineName (line : Str) : Option Str :=
  match idxOfSubstr (str "<li> <a href=\"") line with
  | none => none
  | some i =>
    if 512 < i then none
    else
      match firstMatchBetween (str "\"") (str "\"") line with
      | none => none
      | some e =>
        let name := replaceAllL (str "&#47;") (str "/") e
        if name == str "/" then none
        else if name == str "../" then none else some name

/-- `buildListFromNpxServe`: classify, then reduce every directory and file
name to its final path segment (`d.slice(1 + d.lastIndexOf('/'))`). -/
def buildListFromNpxServe (data : Str) : DirectoryEntry Unit :=
  let de := classifyEntries ((npxLines data).filterMap npxLineName)
  { dirs := de.dirs.map (afterLast '/'),
    files := de.files.map (afterLast '/'),
    handles := [] }

/-- One line of `buildListFromApache24`: drop header and parent rows, find
the `<td><a href="` marker, capture the first quoted substring *from the
marker on*, and skip `../`. -/
def apacheLineName (line : Str) : Option Str :=
  if containsSubstr (str "<th \"") line then none
  else if containsSubstr (str "[PARENTDIR]") line then none
  else
    match idxOfSubstr (str "<td><a href=\"") line with
    | none => none
    | some i =>
      match firstMatchBetween (str "\"") (str "\"") (line.drop i) with
      | none => none
      | some name => if name == str "../" then none else some name

/-- `buildListFromApache24`. -/
def buildListFromApache24 (data : Str) : DirectoryEntry Unit :=
  classifyEntries ((splitOnChar '\n' data).filterMap apacheLineName)

/-- One line of `buildListFromNGINX`: find the `<a href="` marker, capture
the first quoted substring from the marker on, and skip the `../` parent
link. -/
def nginxLineName (line : Str) : Option Str :=
  match idxOfSubstr (str "<a href=\"") line with
  | none => none
  | some i =>
    match firstMatchBetween (str "\"") (str "\"") (line.drop i) with
    | none => none
    | some name => if name == str "../" then none else some name

/-- `buildListFromNGINX`. -/
def buildListFromNGINX (data : Str) : DirectoryEntry Unit :=
  classifyEntries ((splitOnChar '\n' data).filterMap nginxLineName)

/-- `buildListFromHtml`: format-sniffing dispatch over the five dialect
signatures, in source order; an unrecognized body yields an empty listing. -/
def buildListFromHtml (data : Str) : DirectoryEntry Unit :=
  if containsSubstr (str "SimpleWebServer") data then buildListFromSimpleWebServer data
  else if containsSubstr (str "<ul>") data then buildListFromSVN data
  else if containsSubstr (str "<ul id=\"files\">") data then buildListFromNpxServe data
  else if containsSubstr (str "<table>") data then buildListFromApache24 data
  else if containsSubstr (str "\n<a ") data then buildListFromNGINX data
  else ⟨[], [], []⟩

/-- `href.replace(/\/$/, '')`: strip exactly one trailing separator. -/
def replaceTrailingSlash (h : Str) : Str :=
  if h.getLast? == some '/' then h.dropLast else h

/-- One anchor of `parseHtmlDirectoryListing`: skip the `../` parent link,
require both an `href` attribute and non-empty text, classify as a
directory when both `href` and text end in a separator (one trailing
separator stripped), as a file when neither does. -/
def parseHtmlAnchorStep (acc : List Str × List Str) (a : Option Str × Str) :
    List Str × List Str :=
  if a.1 == some (str "../") || a.2 == str ".." then acc
  else
    match a.1 with
    | some h =>
      if !h.isEmpty && !a.2.isEmpty then
        if h.getLast? == some '/' && a.2.getLast? == some '/' then
          (acc.1, acc.2 ++ [replaceTrailingSlash h])
        else if !(h.getLast? == some '/') && !(a.2.getLast? == some '/') then
          (acc.1 ++ [h], acc.2)
        else acc
      else acc
    | none => acc

/-- `parseHtmlDirectoryListing`, over the anchor elements the (browser
builtin) DOM parser extracts: each anchor is its `href` attribute (`none`
for a missing attribute) and its trimmed text content.  Returns
`(files, dirs)`. -/
def parseHtmlDirectoryListing (anchors : List (Option Str × Str)) :
    List Str × List Str :=
  anchors.foldl parseHtmlAnchorStep ([], [])

/-- A name that is a single path segment apart from at most one trailing
separator. -/
def singleSegmentHref (n : Str) : Bool :=
  (replaceTrailingSlash n).all (fun c => c ≠ '/')

/-- The DirectoryEntry separator invariant, strengthened to: no returned
name contains a path separator at all (which entails both "no trailing
separator on directory names" and "no embedded separators"). -/
def noSlashNames (de : DirectoryEntry Unit) : Bool :=
  de.dirs.all (fun n => n.all (fun c => c ≠ '/')) &&
  de.files.all (fun n => n.all (fun c => c ≠ '/'))

/-- The same invariant for the `(files, dirs)` pair returned by
`parseHtmlDirectoryListing`. -/
def noSlashPair (p : List Str × List Str) : Bool :=
  p.1.all (fun n => n.all (fun c => c ≠ '/')) &&
  p.2.all (fun n => n.all (fun c => c ≠ '/'))

/-- `filepath.substring(1 + filepath.lastIndexOf('/'))` — the wildcard
dataset name of `step1PrepareFetch`. -/
def zDatasetOf (filepath : Str) : Str :=
  match lastIdxOfChar '/' filepath with
  | some i => filepath.drop (i + 1)
  | none => filepath

/-- `filepath.substring(0, filepath.lastIndexOf('/'))` — the containing
folder of `step1PrepareFetch` (JS `substring(0, -1)` is the empty string). -/
def zSubfolderOf (filepath : Str) : Str :=
  match lastIdxOfChar '/' filepath with
  | some i => filepath.take i
  | none => []

/-- The body of the `try` block of `step1PrepareFetch` in the xy-time
worker.  `findGlob` stands for `findMatchingGlobInFiles` from `@/js/util`
(not part of the analyzed sources); `backend`, `sortFn` and `cache` feed the
`HTTPFileSystem.getDirectory` call made on the containing folder. -/
def step1Inner {H : Type} (backend : Str → Except Str (DirectoryEntry H))
    (sortFn : List Str → List Str) (cache : Cache H)
    (findGlob : List Str → Str → List Str) (filepath baseURL : Str) :
    Except Str Str :=
  if '*' ∈ filepath ∨ '?' ∈ filepath then
    let zDataset := zDatasetOf filepath
    let zSubfolder := zSubfolderOf filepath
    match (getDirectory backend sortFn cache zSubfolder).1 with
    | .error e => .error e
    | .ok de =>
      let matchingFiles := findGlob de.files zDataset
      if matchingFiles.length = 0 then
        .error (str "Error: No files matched \"" ++ zDataset ++ str "\"")
      else if 1 < matchingFiles.length then
        .error (str "Error: More than one file matched \"" ++ zDataset ++ str "\": " ++
          List.intercalate (str ",") matchingFiles)
      else
        .ok (baseURL ++ '/' :: (zSubfolder ++ '/' :: matchingFiles.headD []))
  else .ok (baseURL ++ '/' :: filepath)

/-- `step1PrepareFetch`: the `catch` block swallows whatever the `try` body
threw and rethrows `Error('LOAD FAIL! ' + filepath)` (after posting a status
message). -/
def step1PrepareFetch {H : Type} (backend : Str → Except Str (DirectoryEntry H))
    (sortFn : List Str → List Str) (cache : Cache H)
    (findGlob : List Str → Str → List Str) (filepath baseURL : Str) :
    Except Str Str :=
  match step1Inner backend sortFn cache findGlob filepath baseURL with
  | .ok url => .ok url
  | .error _ => .error (str "Error: LOAD FAIL! " ++ filepath)

/-- A node of the browser-granted folder tree (the File System Access API
handle): a file handle, or a directory handle asynchronously iterable as
`(name, childHandle)` pairs. -/
inductive FSNode where
  | file : FSNode
  | dir : List (Str × FSNode) → FSNode

/-- `entry.kind === 'file'`. -/
def isFileNode : FSNode → Bool
  | .file => true
  | .dir _ => false

/-- `getChromePermission`: grant trivially without a handle; when the
queried status is not `granted`, grant trivially without a store, otherwise
wait for the user's decision (`userGrant`). -/
def getChromePermission (handle : Option FSNode) (storeConfigured : Bool)
    (queryStatus : Str) (userGrant : Bool) : Bool :=
  match handle with
  | none => true
  | some _ =>
    if queryStatus ≠ str "granted" then
      if !storeConfigured then true else userGrant
    else true

/-- The top-down walk of `getDirectoryFromHandle`: resolve each segment by
exact name match among the current directory's children; a missing segment
is a "Could not find folder" error, and stepping through a file handle makes
the `for await` iteration throw. -/
def walkSegs : FSNode → List Str → Except Str FSNode
  | cur, [] => .ok cur
  | .file, _ :: _ => .error (str "TypeError: currentDir is not async iterable")
  | .dir entries, seg :: rest =>
    match (entries.find? (fun e => e.1 == seg)).map Prod.snd with
    | some h => walkSegs h rest
    | none => .error (str "Error: Could not find folder \"" ++ seg ++ str "\"")

/-- `getDirectoryFromHandle`: empty listing when no handle is configured or
the permission gate resolves to a denial; otherwise split the path, clean it
with `eatDots`, walk the tree and enumerate the resolved directory,
retaining each child's handle. -/
def getDirectoryFromHandle (fsHandle : Option FSNode) (storeConfigured : Bool)
    (queryStatus : Str) (userGrant : Bool) (stillScaryPath : Str) :
    Except Str (DirectoryEntry FSNode) :=
  let contents : DirectoryEntry FSNode := ⟨[], [], []⟩
  match fsHandle with
  | none => .ok contents
  | some root =>
    let granted := getChromePermission fsHandle storeConfigured queryStatus userGrant
    if !granted then .ok contents
    else
      let parts := (splitOnChar '/' stillScaryPath).filter (fun p => !p.isEmpty)
      let cleanDirParts := eatDots parts
      match walkSegs root cleanDirParts with
      | .error e => .error e
      | .ok .file => .error (str "TypeError: currentDir.values is not a function")
      | .ok (.dir entries) =>
        .ok { files := (entries.filter (fun e => isFileNode e.2)).map Prod.fst,
              dirs := (entries.filter (fun e => !isFileNode e.2)).map Prod.fst,
              handles := entries }

/-! ## Helper lemmas -/

theorem idxOfSubstr_cons_none {pat : Str} {c : Char} {rest : Str}
    (h : idxOfSubstr pat (c :: rest) = none) :
    pat.isPrefixOf (c :: rest) = false ∧ idxOfSubstr pat rest = none := by
  unfold idxOfSubstr at h
  cases hp : pat.isPrefixOf (c :: rest) with
  | true => rw [hp] at h; simp at h
  | false => rw [hp] at h; simp at h; exact ⟨rfl, h⟩

theorem replaceAllFuel_no_occur (pat repl : Str) :
    ∀ (n : Nat) (l : Str), idxOfSubstr pat l = none → replaceAllFuel pat repl n l = l := by
  intro n l
  induction l generalizing n with
  | nil => intro _; cases n <;> rfl
  | cons c rest ih =>
    intro h
    obtain ⟨hp, hr⟩ := idxOfSubstr_cons_none h
    cases n with
    | zero => rfl
    | succ m =>
      unfold replaceAllFuel
      rw [hp]
      simp only [Bool.false_eq_true, if_false]
      rw [ih m hr]

theorem replaceAllL_no_occur (pat repl l : Str) (h : containsSubstr pat l = false) :
    replaceAllL pat repl l = l := by
  unfold containsSubstr at h
  cases hn : idxOfSubstr pat l with
  | none => exact replaceAllFuel_no_occur pat repl l.length l hn
  | some i => rw [hn] at h; simp at h

theorem collapseDotKey_no_dot {p : Str} (h : containsSubstr (str "/./") p = false) :
    collapseDotKey p = p :=
  replaceAllL_no_occur _ _ _ h

/-! ## C1 and C2: getDirectory caching and error wrapping -/

/-- C1 (counterexample): for the path `/a/./b` the first `getDirectory` call
performs a backend fetch, and so does the second call made with the cache
produced by the first — the `/./` collapse happens after the cache lookup
but before the cache write, so the lookup key never matches the stored key.
This refutes the claim that for *every* path the second call performs no
underlying backend fetch. -/
theorem getDirectory_dotSegment_refetches :
    (getDirectory (H := Unit) (fun _ => .ok ⟨[], [], []⟩) id [] (str "/a/./b")).2.2 = true ∧
    (getDirectory (H := Unit) (fun _ => .ok ⟨[], [], []⟩) id
      ((getDirectory (H := Unit) (fun _ => .ok ⟨[], [], []⟩) id [] (str "/a/./b")).2.1)
      (str "/a/./b")).2.2 = true := by
  decide

/-- C1 (amended): two sequential `getDirectory(p)` calls with no intervening
`clearCache` return equal `DirectoryEntry` values for every path; and
whenever the lookup-normalized path (duplicate separators collapsed in one
pass, trailing separator forced) contains no `/./`, the second call is a
pure cache hit: it performs no backend fetch and leaves the cache
unchanged. -/
theorem getDirectory_idempotent {H : Type} (backend : Str → Except Str (DirectoryEntry H))
    (sortFn : List Str → List Str) (cache : Cache H) (p : Str)
    (d : DirectoryEntry H) (c1 : Cache H) (b1 : Bool)
    (h : getDirectory backend sortFn cache p = (.ok d, c1, b1)) :
    (getDirectory backend sortFn c1 p).1 = .ok d ∧
    (containsSubstr (str "/./") (normSlash p) = false →
      getDirectory backend sortFn c1 p = (.ok d, c1, false)) := by
  simp only [getDirectory] at h ⊢
  cases hl : lookupCache cache (normSlash p) with
  | some e =>
    simp only [hl] at h
    simp only [Prod.mk.injEq, Except.ok.injEq] at h
    obtain ⟨hd, hc, _⟩ := h
    subst hd; subst hc
    simp only [hl]
    exact ⟨trivial, fun _ => trivial⟩
  | none =>
    simp only [hl] at h
    cases hb : backend (collapseDotKey (normSlash p)) with
    | error e => simp only [hb] at h; simp at h
    | ok de =>
      simp only [hb] at h
      simp only [Prod.mk.injEq, Except.ok.injEq] at h
      obtain ⟨hd, hc, _⟩ := h
      subst hd; subst hc
      constructor
      · by_cases hk : collapseDotKey (normSlash p) = normSlash p
        · simp [lookupCache, hk]
        · simp [lookupCache, hk, hl, hb]
      · intro hno
        have hk := collapseDotKey_no_dot hno
        simp [lookupCache, hk]

/-- Witness for `getDirectory_idempotent` at a concrete input: listing `/d`
against an empty cache and then again against the resulting cache is a pure
cache hit. -/
theorem getDirectory_idempotent_witness :
    getDirectory (H := Unit) (fun _ => .ok ⟨[], [], []⟩) id
      [(str "/d/", ⟨[], [], []⟩)] (str "/d") =
    (.ok ⟨[], [], []⟩, [(str "/d/", ⟨[], [], []⟩)], false) :=
  (getDirectory_idempotent (fun _ => .ok ⟨[], [], []⟩) id [] (str "/d")
    ⟨[], [], []⟩ [(str "/d/", ⟨[], [], []⟩)] true (by decide)).2 (by decide)

/-- C2 (counterexample): a backend failure `boom` while listing `/data` is
rethrown as `Error: boom`; the original path `/data` occurs nowhere in the
wrapped error, refuting the claim that the wrapped error reports the
original path. -/
theorem getDirectory_error_omits_path :
    getDirectory (H := Unit) (fun _ => .error (str "boom")) id [] (str "/data") =
      (.error (str "Error: boom"), [], true) ∧
    ¬ (str "/data") <:+: (str "Error: boom") := by
  decide

/-- C2 (amended): when the backend adapter throws during `getDirectory(p)`,
the call throws a single wrapped error whose message is the stringified
underlying cause (the cause is a suffix of the wrapped message, but the
original path is not included unless the cause happens to mention it), and
the cache is returned unchanged — no entry is written, never partially
populated. -/
theorem getDirectory_error_wraps {H : Type} (backend : Str → Except Str (DirectoryEntry H))
    (sortFn : List Str → List Str) (cache : Cache H) (p e : Str)
    (hmiss : lookupCache cache (normSlash p) = none)
    (hb : backend (collapseDotKey (normSlash p)) = .error e) :
    getDirectory backend sortFn cache p = (.error (str "Error: " ++ e), cache, true) ∧
    List.IsSuffix e (str "Error: " ++ e) := by
  constructor
  · simp only [getDirectory, hmiss, hb]
  · exact ⟨str "Error: ", rfl⟩

/-- Witness for `getDirectory_error_wraps` at a concrete input. -/
theorem getDirectory_error_wraps_witness :
    getDirectory (H := Unit) (fun _ => .error (str "oops")) id [] (str "/p") =
      (.error (str "Error: oops"), [], true) :=
  (getDirectory_error_wraps (fun _ => .error (str "oops")) id [] (str "/p") (str "oops")
    (by decide) (by decide)).1

/-! ## C3: the cleanURL sanitize step -/

/-- C3 (code bug): the sanitize step of `cleanURL` strips nothing from
`##/data` — the regex, lacking a character class and a negation, matches
only the literal text `scaryLitPrefix` followed by colons, as the third
conjunct shows — so characters outside the allowed set survive into the
joined URL, contradicting the documented intent of stripping them. -/
theorem cleanURL_no_strip_at_failing_input :
    stripScary (str "##/data") = str "##/data" ∧
    cleanURLpre (str "https://example.com/") (str "##/data") =
      str "https://example.com/##/data" ∧
    stripScary (str "0-9a-zA-Z_-/::x") = str "x" := by
  decide

/-! ## C4: the eatDots fixpoint -/

theorem eatDots_spliced_length {parts : List Str}
    (_h1 : parts.indexOf (str "..") ≠ 0) (h2 : parts.indexOf (str "..") < parts.length) :
    ((parts.enum.filter (fun q =>
        q.1 ≠ parts.indexOf (str "..") - 1 ∧ q.1 ≠ parts.indexOf (str ".."))).map Prod.snd).length
      < parts.length := by
  rw [List.length_map]
  have hmem : (parts.indexOf (str ".."), parts[parts.indexOf (str "..")]) ∈ parts.enum := by
    have : parts.enum[parts.indexOf (str "..")]? =
        some (parts.indexOf (str ".."), parts[parts.indexOf (str "..")]) := by
      rw [List.getElem?_enum]
      simp [List.getElem?_eq_getElem h2]
    exact List.getElem?_mem this
  have hlt : ((parts.enum.filter (fun q =>
      q.1 ≠ parts.indexOf (str "..") - 1 ∧ q.1 ≠ parts.indexOf (str ".."))).length
      < parts.enum.length) := by
    rw [List.length_filter_lt_length_iff_exists]
    exact ⟨_, hmem, by simp⟩
  simpa using hlt

theorem eatDotsFuel_stop : ∀ (n : Nat) (parts : List Str), parts.length ≤ n →
    (eatDotsFuel n parts).indexOf (str "..") = 0 ∨
    (eatDotsFuel n parts).length ≤ (eatDotsFuel n parts).indexOf (str "..") := by
  intro n
  induction n with
  | zero =>
    intro parts h
    exact Or.inr (le_trans h (Nat.zero_le _))
  | succ m ih =>
    intro parts h
    simp only [eatDotsFuel]
    by_cases hstop : parts.indexOf (str "..") = 0 ∨ parts.length ≤ parts.indexOf (str "..")
    · rw [if_pos hstop]; exact hstop
    · rw [if_neg hstop]
      push_neg at hstop
      obtain ⟨h1, h2⟩ := hstop
      apply ih
      have := eatDots_spliced_length h1 h2
      omega

/-- C4 (counterexample): on `["..", "a", "..", "b"]` the cleaning step
returns its input unchanged even though the `..` at index 2 has a
preceding segment and is thus removable under the claim's reading — the
source stops the whole loop as soon as the *first* `..` sits at index 0,
refuting "repeating until no removable `..` remains". -/
theorem eatDots_leaves_removable_dotdot :
    eatDots [str "..", str "a", str "..", str "b"] =
      [str "..", str "a", str "..", str "b"] ∧
    (eatDots [str "..", str "a", str "..", str "b"])[2]? = some (str "..") := by
  decide

/-- C4 (amended): the cleaning step repeatedly removes the *first* `..`
segment together with the segment immediately preceding it and stops as
soon as the first `..` of the remaining list is at the head (or no `..`
remains) — the general conjunct states exactly that stopping condition of
every result; `["a","b","..","c"]` reduces to `["a","c"]`, a leading `..`
as in `["..","a"]` is left in place, and removal cascades as in
`["a","..","..","b"]` to `["..","b"]`. -/
theorem eatDots_first_dotdot_removal :
    (∀ parts : List Str,
      (eatDots parts).indexOf (str "..") = 0 ∨
      (eatDots parts).length ≤ (eatDots parts).indexOf (str "..")) ∧
    eatDots [str "a", str "b", str "..", str "c"] = [str "a", str "c"] ∧
    eatDots [str "..", str "a"] = [str "..", str "a"] ∧
    eatDots [str "a", str "..", str "..", str "b"] = [str "..", str "b"] := by
  exact ⟨fun parts => eatDotsFuel_stop parts.length parts le_rfl,
    by decide, by decide, by decide⟩

/-! ## C5: the gzip pipeline -/

/-- C5: the decompression pipeline leaves any buffer whose first two bytes
are not `0x1f 0x8b` unchanged, and — for any inflate/gzip pair where
inflation undoes gzip and gzip output carries the magic header — a single
pipeline call on an `n`-times-gzipped plaintext (whose own first two bytes
are not the magic) returns the original plaintext, for any fuel of at
least `n` (the source recursion is uncapped, so fuel only bounds the
modelled depth). -/
theorem gUnzip_pipeline (inflate gzip : List Nat → List Nat) :
    (∀ (fuel : Nat) (b : List Nat), b.take 2 ≠ [31, 139] → gUnzipFuel inflate fuel b = b) ∧
    ((∀ b, inflate (gzip b) = b) → (∀ b, ∃ r, gzip b = 31 :: 139 :: r) →
      ∀ (n fuel : Nat) (p : List Nat), n ≤ fuel → p.take 2 ≠ [31, 139] →
        gUnzipFuel inflate fuel (gzip^[n] p) = p) := by
  have hbase : ∀ (fuel : Nat) (b : List Nat), b.take 2 ≠ [31, 139] →
      gUnzipFuel inflate fuel b = b := by
    intro fuel b hb
    cases fuel with
    | zero => rfl
    | succ m =>
      unfold gUnzipFuel
      split
      · next rest heq => simp at hb
      · rfl
  refine ⟨hbase, ?_⟩
  intro hinv hmagic n
  induction n with
  | zero =>
    intro fuel p _ hp
    exact hbase fuel p hp
  | succ k ih =>
    intro fuel p hf hp
    rw [Function.iterate_succ_apply']
    obtain ⟨r, hr⟩ := hmagic (gzip^[k] p)
    cases fuel with
    | zero => omega
    | succ m =>
      rw [hr]
      show gUnzipFuel inflate m (inflate (31 :: 139 :: r)) = p
      rw [← hr, hinv]
      exact ih m p (by omega) hp

/-- Witness for `gUnzip_pipeline`: a double-gzipped plaintext (modelled by a
header-prepending gzip and a header-dropping inflate) unwraps to the
plaintext in one call, and a non-gzip buffer passes through unchanged. -/
theorem gUnzip_pipeline_witness :
    gUnzipFuel (fun b => b.drop 2) 2 ((fun b => 31 :: 139 :: b)^[2] [65]) = [65] ∧
    gUnzipFuel (fun b => b.drop 2) 3 [7, 8] = [7, 8] :=
  ⟨(gUnzip_pipeline (fun b => b.drop 2) (fun b => 31 :: 139 :: b)).2
      (fun _ => rfl) (fun b => ⟨b, rfl⟩) 2 2 [65] (by decide) (by decide),
   (gUnzip_pipeline (fun b => b.drop 2) (fun b => 31 :: 139 :: b)).1 3 [7, 8] (by decide)⟩

/-! ## C6: GitHub binary classification -/

theorem takeWhile_append_all {α : Type} (p : α → Bool) (xs ys : List α)
    (h : ∀ a ∈ xs, p a = true) :
    (xs ++ ys).takeWhile p = xs ++ ys.takeWhile p := by
  induction xs with
  | nil => rfl
  | cons a t ih =>
    rw [List.cons_append, List.takeWhile_cons, if_pos (h a (List.mem_cons_self a t)),
      ih (fun x hx => h x (List.mem_cons_of_mem a hx)), List.cons_append]

theorem takeWhile_append_stop {α : Type} (p : α → Bool) (xs ys : List α) (y : α)
    (hxs : ∀ a ∈ xs, p a = true) (hy : p y = false) :
    (xs ++ y :: ys).takeWhile p = xs := by
  rw [takeWhile_append_all p xs (y :: ys) hxs, List.takeWhile_cons, if_neg (by simp [hy]),
    List.append_nil]

theorem dropWhile_head_false {α : Type} (p : α → Bool) :
    ∀ (l : List α) (c : α) (z : List α), l.dropWhile p = c :: z → p c = false := by
  intro l
  induction l with
  | nil => intro c z h; simp at h
  | cons a t ih =>
    intro c z h
    rw [List.dropWhile_cons] at h
    split at h
    · exact ih c z h
    · next hpa =>
      injection h with h1 _
      simp at hpa
      exact h1 ▸ hpa

theorem afterLast_suffix (sep : Char) (l : Str) : afterLast sep l <:+ l := by
  unfold afterLast
  apply List.reverse_prefix.mp
  simpa using List.takeWhile_prefix (l := l.reverse) (p := fun c => decide (c ≠ sep))

theorem afterLast_suffix_mono {sep : Char} {m l : Str} (hm : m <:+ l) (hsep : sep ∉ m) :
    m <:+ afterLast sep l := by
  obtain ⟨t, rfl⟩ := hm
  unfold afterLast
  rw [List.reverse_append,
    takeWhile_append_all (fun c => decide (c ≠ sep)) m.reverse t.reverse
      (fun a ha => decide_eq_true (fun hEq : a = sep => hsep (hEq ▸ List.mem_reverse.mp ha))),
    List.reverse_append, List.reverse_reverse]
  exact List.suffix_append _ _

theorem afterLast_append_cons {sep : Char} (t m : Str) (hsep : sep ∉ m) :
    afterLast sep (t ++ sep :: m) = m := by
  unfold afterLast
  rw [List.reverse_append, List.reverse_cons, List.append_assoc, List.singleton_append,
    takeWhile_append_stop (fun c => decide (c ≠ sep)) m.reverse t.reverse sep
      (fun a ha => decide_eq_true (fun hEq : a = sep => hsep (hEq ▸ List.mem_reverse.mp ha)))
      (decide_eq_false (fun hb => hb rfl)),
    List.reverse_reverse]

theorem cons_afterLast_suffix {sep : Char} {l : Str} (h : sep ∈ l) :
    sep :: afterLast sep l <:+ l := by
  unfold afterLast
  have hne : l.reverse.dropWhile (fun c => decide (c ≠ sep)) ≠ [] := by
    rw [Ne, List.dropWhile_eq_nil_iff]
    push_neg
    exact ⟨sep, List.mem_reverse.mpr h, by simp⟩
  obtain ⟨c, z, hcz⟩ := List.exists_cons_of_ne_nil hne
  have hc : c = sep := by
    have hf := dropWhile_head_false _ _ _ _ hcz
    simpa using hf
  rw [hc] at hcz
  refine ⟨z.reverse, ?_⟩
  conv_rhs => rw [← List.reverse_reverse l, ← List.takeWhile_append_dropWhile
    (p := fun c => decide (c ≠ sep)) (l := l.reverse)]
  rw [hcz, List.reverse_append, List.reverse_cons, List.append_assoc, List.singleton_append]

theorem binary_exts_wf : ∀ e ∈ BINARY_EXTS, e ≠ [] ∧ '.' ∉ e ∧ '/' ∉ e := by decide

theorem suffix_ext_imp {q e : Str} (he : e ∈ BINARY_EXTS) (hs : ('.' :: e) <:+ q) :
    '.' ∈ afterLast '/' q ∧ afterLast '.' (afterLast '/' q) = e := by
  obtain ⟨_, hdotn, hsl⟩ := binary_exts_wf e he
  have hsep : '/' ∉ ('.' :: e) := by
    intro hmem
    rcases List.mem_cons.mp hmem with h1 | h2
    · exact absurd h1.symm (by decide)
    · exact hsl h2
  have hfn : ('.' :: e) <:+ afterLast '/' q := afterLast_suffix_mono hs hsep
  have hdot : '.' ∈ afterLast '/' q := hfn.subset (List.mem_cons_self _ _)
  obtain ⟨t, ht⟩ := hfn
  refine ⟨hdot, ?_⟩
  rw [← ht]
  exact afterLast_append_cons t e hdotn

theorem ext_imp_suffix {q : Str} (hdot : '.' ∈ afterLast '/' q) :
    ('.' :: afterLast '.' (afterLast '/' q)) <:+ q :=
  (cons_afterLast_suffix hdot).trans (afterLast_suffix '/' q)

theorem binariesTest_eq_extension (q : Str) :
    binariesTest q = (match spec_extensionOfPath q with
      | some e => BINARY_EXTS.contains e
      | none => false) := by
  rcases h : spec_extensionOfPath q with _ | e
  · -- no extension: the test must be false
    show binariesTest q = false
    simp only [spec_extensionOfPath] at h
    by_cases hdot : '.' ∈ afterLast '/' q
    · rw [if_pos hdot] at h; exact absurd h (by simp)
    · rw [Bool.eq_false_iff]
      intro htrue
      obtain ⟨e, hmem, hsuf⟩ := List.any_eq_true.mp htrue
      have hs : ('.' :: e) <:+ q := List.isSuffixOf_iff_suffix.mp hsuf
      exact hdot (suffix_ext_imp hmem hs).1
  · -- extension present
    show binariesTest q = BINARY_EXTS.contains e
    simp only [spec_extensionOfPath] at h
    by_cases hdot : '.' ∈ afterLast '/' q
    · rw [if_pos hdot] at h
      injection h with he
      cases hb : BINARY_EXTS.contains e with
      | false =>
        rw [Bool.eq_false_iff]
        intro htrue
        obtain ⟨e', hmem, hsuf⟩ := List.any_eq_true.mp htrue
        have hs : ('.' :: e') <:+ q := List.isSuffixOf_iff_suffix.mp hsuf
        have hee : e = e' := by
          have := (suffix_ext_imp hmem hs).2
          rw [he] at this
          exact this
        rw [Bool.eq_false_iff] at hb
        exact hb (hee ▸ List.elem_eq_true_of_mem hmem)
      | true =>
        have hmem : e ∈ BINARY_EXTS := List.elem_iff.mp hb
        apply List.any_eq_true.mpr
        refine ⟨e, hmem, List.isSuffixOf_iff_suffix.mpr ?_⟩
        have := ext_imp_suffix hdot
        rw [he] at this
        exact this
    · rw [if_neg hdot] at h; exact absurd h (by simp)

theorem binariesTest_eq_spec (p : Str) :
    binariesTest (toLowerStr p) = spec_isBinaryByExtension p :=
  binariesTest_eq_extension (toLowerStr p)

/-- C6: reading a GitHub file whose API response declares base64 encoding
classifies the decoded bytes by the requested path's filename extension,
case-insensitively, against the fixed binary-extension set: a matching
extension yields the raw bytes, any other yields the UTF-8 decoding of
those bytes as text.  `spec_isBinaryByExtension` is the spec-side
definition (extension of the final path segment); the proof goes through
its equivalence with the source's suffix-regex test. -/
theorem github_base64_classification (utf8Decode : List Nat → Str) (path : Str)
    (b : List Nat) :
    (spec_isBinaryByExtension path = true →
      githubClassifyBase64 utf8Decode path b = .bytes b) ∧
    (spec_isBinaryByExtension path = false →
      githubClassifyBase64 utf8Decode path b = .text (utf8Decode b)) := by
  unfold githubClassifyBase64
  rw [binariesTest_eq_spec]
  constructor
  · intro h; rw [h]; rfl
  · intro h; rw [h]; rfl

/-- Witness for `github_base64_classification`: a `.PNG` path keeps the raw
bytes, a `.csv` path is decoded to text. -/
theorem github_base64_classification_witness :
    githubClassifyBase64 (fun _ => str "") (str "owner/repo/img.PNG") [1, 2] =
      .bytes [1, 2] ∧
    githubClassifyBase64 (fun _ => str "") (str "owner/repo/data.csv") [3] =
      .text (str "") :=
  ⟨(github_base64_classification (fun _ => str "") (str "owner/repo/img.PNG") [1, 2]).1
      (by decide),
   (github_base64_classification (fun _ => str "") (str "owner/repo/data.csv") [3]).2
      (by decide)⟩

/-! ## C7: config discovery override semantics -/

theorem getKey_cons (a : Str × Str) (m : YamlMap) (k : Str) :
    getKey (a :: m) k = if a.1 = k then some a.2 else getKey m k := by
  unfold getKey
  by_cases h : a.1 = k
  · rw [List.find?_cons_of_pos _ (by simp [h]), if_pos h]; rfl
  · rw [List.find?_cons_of_neg _ (by simp [h]), if_neg h]

theorem setKey_cons_of_eq (a : Str × Str) (m : YamlMap) (v : Str) :
    setKey (a :: m) a.1 v =
      (a.1, v) :: m.map (fun p => if p.1 == a.1 then (p.1, v) else p) := by
  unfold setKey
  rw [if_pos (by rw [List.find?_cons_of_pos _ (by simp)]; rfl), List.map_cons]
  congr 1
  simp

theorem setKey_cons_of_ne (a : Str × Str) (m : YamlMap) (k v : Str) (h : a.1 ≠ k) :
    setKey (a :: m) k v = a :: setKey m k v := by
  unfold setKey
  rw [List.find?_cons_of_neg _ (by simp [h])]
  by_cases hs : (m.find? (fun p => p.1 == k)).isSome
  · rw [if_pos hs, if_pos hs, List.map_cons]
    congr 1
    simp [h]
  · rw [if_neg hs, if_neg hs, List.cons_append]

theorem getKey_map_subst_ne (m : YamlMap) (k v k' : Str) (h : k' ≠ k) :
    getKey (m.map (fun p => if p.1 == k then (p.1, v) else p)) k' = getKey m k' := by
  induction m with
  | nil => rfl
  | cons a m ih =>
    rw [List.map_cons, getKey_cons, getKey_cons]
    have hfst : (if a.1 == k then (a.1, v) else a).1 = a.1 := by
      by_cases hh : a.1 = k <;> simp [hh]
    rw [hfst]
    by_cases hk' : a.1 = k'
    · have hak : ¬ a.1 = k := fun hh => h (hk' ▸ hh)
      rw [if_pos hk', if_pos hk']
      simp [hak]
    · rw [if_neg hk', if_neg hk', ih]

theorem getKey_setKey (m : YamlMap) (k v k' : Str) :
    getKey (setKey m k v) k' = if k' = k then some v else getKey m k' := by
  induction m with
  | nil =>
    show getKey [(k, v)] k' = _
    rw [getKey_cons]
    by_cases h : k = k'
    · rw [if_pos h, if_pos h.symm]
    · rw [if_neg h, if_neg (fun hh => h hh.symm)]
  | cons a m ih =>
    by_cases ha : a.1 = k
    · subst ha
      rw [setKey_cons_of_eq, getKey_cons]
      by_cases hk' : a.1 = k'
      · rw [if_pos hk', if_pos hk'.symm]
    
      · rw [if_neg hk', if_neg (fun hh : k' = a.1 => hk' hh.symm),
          getKey_map_subst_ne m a.1 v k' (fun hh : k' = a.1 => hk' hh.symm), getKey_cons,
          if_neg hk']
    · rw [setKey_cons_of_ne a m k v ha, getKey_cons, getKey_cons]
      by_cases hk' : a.1 = k'
      · rw [if_pos hk', if_neg (fun hh : k' = k => ha (hk'.trans hh)), if_pos hk']
      · rw [if_neg hk', if_neg hk', ih]

theorem getKey_foldl_setKey (v : Str → Str) (l : List Str) :
    ∀ (m : YamlMap) (f : Str),
      getKey (l.foldl (fun m y => setKey m y (v y)) m) f =
        if f ∈ l then some (v f) else getKey m f := by
  induction l with
  | nil => intro m f; simp
  | cons y t ih =>
    intro m f
    rw [List.foldl_cons, ih]
    by_cases hft : f ∈ t
    · rw [if_pos hft, if_pos (List.mem_cons_of_mem y hft)]
    · rw [if_neg hft, getKey_setKey]
      by_cases hfy : f = y
      · subst hfy
        rw [if_pos rfl, if_pos (List.mem_cons_self f t)]
      · rw [if_neg hfy, if_neg (by simp [hfy, hft])]

theorem getKey_nil (f : Str) : getKey [] f = none := rfl

theorem findConfigStep_eq (getDirF : Str → Except Str (DirectoryEntry Unit))
    (st : Str × List Str) (chunk : Str) :
    findConfigStep getDirF st chunk =
      (replaceAllL (str "//") (str "/") (st.1 ++ chunk ++ [ '/' ]),
       st.2 ++ configFoldersAt getDirF
         (replaceAllL (str "//") (str "/") (st.1 ++ chunk ++ [ '/' ]))) := by
  simp only [findConfigStep, configFoldersAt]
  cases h : getDirF (replaceAllL (str "//") (str "/") (st.1 ++ chunk ++ [ '/' ])) with
  | ok de => simp [h]
  | error e => simp [h]

theorem foldl_findConfigStep (getDirF : Str → Except Str (DirectoryEntry Unit))
    (chunks : List Str) :
    ∀ (cp : Str) (acc : List Str),
      (chunks.foldl (findConfigStep getDirF) (cp, acc)).2 =
        acc ++ (walkPaths cp chunks).flatMap (configFoldersAt getDirF) := by
  induction chunks with
  | nil => intro cp acc; simp [walkPaths]
  | cons chunk rest ih =>
    intro cp acc
    rw [List.foldl_cons, findConfigStep_eq, ih]
    simp [walkPaths, List.flatMap_cons, List.append_assoc]

theorem findConfigFolders_eq (getDirF : Str → Except Str (DirectoryEntry Unit))
    (folder : Str) :
    findConfigFolders getDirF folder =
      (ancestorPaths folder).flatMap (configFoldersAt getDirF) ++ [folder] := by
  simp only [findConfigFolders, ancestorPaths]
  rw [foldl_findConfigStep]
  simp

theorem lastAssigned_append (getDirF : Str → Except Str (DirectoryEntry Unit))
    (pat : Str → Bool) (f : Str) (l1 l2 : List Str) :
    lastAssigned getDirF pat f (l1 ++ l2) =
      Option.or (lastAssigned getDirF pat f l2) (lastAssigned getDirF pat f l1) := by
  induction l1 with
  | nil => simp [lastAssigned]
  | cons cf rest ih =>
    simp only [List.cons_append, lastAssigned, List.append_eq]
    rw [ih, Option.or_assoc]

theorem foldlM_process_lastAssigned (getDirF : Str → Except Str (DirectoryEntry Unit))
    (proj : YamlConfigs → YamlMap) (pat : Str → Bool)
    (hproj : ∀ (y0 : YamlConfigs) (cf : Str) (de : DirectoryEntry Unit),
      getDirF cf = .ok de → ∀ y1, processConfigFolder getDirF y0 cf = .ok y1 →
      proj y1 = assignMatches cf de.files pat (proj y0)) :
    ∀ (fs : List Str) (init y : YamlConfigs),
      fs.foldlM (processConfigFolder getDirF) init = .ok y →
      ∀ f, getKey (proj y) f =
        Option.or (lastAssigned getDirF pat f fs) (getKey (proj init) f) := by
  intro fs
  induction fs with
  | nil =>
    intro init y hok f
    simp only [List.foldlM_nil] at hok
    have heq : init = y := by simpa [pure, Except.pure] using hok
    subst heq
    simp [lastAssigned]
  | cons cf rest ih =>
    intro init y hok f
    rw [List.foldlM_cons] at hok
    cases hstep : processConfigFolder getDirF init cf with
    | error e =>
      rw [hstep] at hok
      exact absurd hok (by simp [Bind.bind, Except.bind])
    | ok y1 =>
      rw [hstep] at hok
      have hrest : rest.foldlM (processConfigFolder getDirF) y1 = .ok y := by
        simpa [Bind.bind, Except.bind] using hok
      obtain ⟨de, hcf⟩ : ∃ de, getDirF cf = .ok de := by
        unfold processConfigFolder at hstep
        cases hc : getDirF cf with
        | error e => rw [hc] at hstep; exact absurd hstep (by simp)
        | ok de => exact ⟨de, rfl⟩
      have hp := hproj init cf de hcf y1 hstep
      have IH := ih y1 y hrest f
      rw [IH, hp]
      unfold assignMatches
      rw [getKey_foldl_setKey]
      simp only [lastAssigned, hcf, Option.or_assoc]
      by_cases hf : f ∈ mmMatch de.files pat
      · simp [hf]
      · simp [hf]

/-- C7: config discovery processes the candidate config folders in
root-to-leaf ancestor order with the target folder itself appended as the
final, highest-priority candidate — the candidate list is exactly the
per-ancestor config-folder contributions of the root-to-leaf ancestor walk
followed by the target folder (first conjunct) — and for each of the four
filename-pattern mappings every key resolves to the path recorded by the
*last* candidate folder in that order whose listing matches it, i.e. every
match is recorded keyed by filename and later (closer-to-target) folders
overwrite same-named entries from earlier (ancestor) folders (second to
fifth conjuncts, a full characterization of each mapping).  In particular
(final conjunct) a filename matching any of the four patterns that is
present in the target folder's own listing always resolves to the
target-folder path, whatever any ancestor contained. -/
theorem findAllYamlConfigs_override (getDirF : Str → Except Str (DirectoryEntry Unit))
    (folder : Str) (y : YamlConfigs)
    (hok : findAllYamlConfigs getDirF folder = .ok y) :
    findConfigFolders getDirF folder =
      (ancestorPaths folder).flatMap (configFoldersAt getDirF) ++ [folder] ∧
    (∀ f, getKey y.dashboards f =
      lastAssigned getDirF isDashboardYaml f (findConfigFolders getDirF folder)) ∧
    (∀ f, getKey y.topsheets f =
      lastAssigned getDirF isTopsheetYaml f (findConfigFolders getDirF folder)) ∧
    (∀ f, getKey y.vizes f =
      lastAssigned getDirF isVizYaml f (findConfigFolders getDirF folder)) ∧
    (∀ f, getKey y.configs f =
      lastAssigned getDirF isConfigYaml f (findConfigFolders getDirF folder)) ∧
    (∀ (de : DirectoryEntry Unit) (f : Str), getDirF folder = .ok de → f ∈ de.files →
      (isDashboardYaml f = true → getKey y.dashboards f =
        some (replaceAllL (str "//") (str "/") (folder ++ '/' :: f))) ∧
      (isTopsheetYaml f = true → getKey y.topsheets f =
        some (replaceAllL (str "//") (str "/") (folder ++ '/' :: f))) ∧
      (isVizYaml f = true → getKey y.vizes f =
        some (replaceAllL (str "//") (str "/") (folder ++ '/' :: f))) ∧
      (isConfigYaml f = true → getKey y.configs f =
        some (replaceAllL (str "//") (str "/") (folder ++ '/' :: f)))) := by
  unfold findAllYamlConfigs at hok
  have hdash := foldlM_process_lastAssigned getDirF (fun z => z.dashboards) isDashboardYaml
    (fun y0 cf de hcf y1 hstep => by
      unfold processConfigFolder at hstep
      rw [hcf] at hstep
      injection hstep with h
      rw [← h])
    (findConfigFolders getDirF folder) ⟨[], [], [], []⟩ y hok
  have htop := foldlM_process_lastAssigned getDirF (fun z => z.topsheets) isTopsheetYaml
    (fun y0 cf de hcf y1 hstep => by
      unfold processConfigFolder at hstep
      rw [hcf] at hstep
      injection hstep with h
      rw [← h])
    (findConfigFolders getDirF folder) ⟨[], [], [], []⟩ y hok
  have hviz := foldlM_process_lastAssigned getDirF (fun z => z.vizes) isVizYaml
    (fun y0 cf de hcf y1 hstep => by
      unfold processConfigFolder at hstep
      rw [hcf] at hstep
      injection hstep with h
      rw [← h])
    (findConfigFolders getDirF folder) ⟨[], [], [], []⟩ y hok
  have hconf := foldlM_process_lastAssigned getDirF (fun z => z.configs) isConfigYaml
    (fun y0 cf de hcf y1 hstep => by
      unfold processConfigFolder at hstep
      rw [hcf] at hstep
      injection hstep with h
      rw [← h])
    (findConfigFolders getDirF folder) ⟨[], [], [], []⟩ y hok
  have hdash2 : ∀ f, getKey y.dashboards f =
      lastAssigned getDirF isDashboardYaml f (findConfigFolders getDirF folder) := by
    intro f
    have h1 := hdash f
    dsimp only at h1
    rw [getKey_nil, Option.or_none] at h1
    exact h1
  have htop2 : ∀ f, getKey y.topsheets f =
      lastAssigned getDirF isTopsheetYaml f (findConfigFolders getDirF folder) := by
    intro f
    have h1 := htop f
    dsimp only at h1
    rw [getKey_nil, Option.or_none] at h1
    exact h1
  have hviz2 : ∀ f, getKey y.vizes f =
      lastAssigned getDirF isVizYaml f (findConfigFolders getDirF folder) := by
    intro f
    have h1 := hviz f
    dsimp only at h1
    rw [getKey_nil, Option.or_none] at h1
    exact h1
  have hconf2 : ∀ f, getKey y.configs f =
      lastAssigned getDirF isConfigYaml f (findConfigFolders getDirF folder) := by
    intro f
    have h1 := hconf f
    dsimp only at h1
    rw [getKey_nil, Option.or_none] at h1
    exact h1
  have hlastwin : ∀ (de : DirectoryEntry Unit) (f : Str), getDirF folder = .ok de →
      f ∈ de.files → ∀ (pat : Str → Bool), pat f = true →
      lastAssigned getDirF pat f (findConfigFolders getDirF folder) =
        some (replaceAllL (str "//") (str "/") (folder ++ '/' :: f)) := by
    intro de f hlist hmem pat hpat
    obtain ⟨pre, hpre⟩ : ∃ pre, findConfigFolders getDirF folder = pre ++ [folder] :=
      ⟨_, rfl⟩
    rw [hpre, lastAssigned_append]
    simp [lastAssigned, hlist,
      show f ∈ mmMatch de.files pat from List.mem_filter.mpr ⟨hmem, hpat⟩]
  exact ⟨findConfigFolders_eq getDirF folder, hdash2, htop2, hviz2, hconf2,
    fun de f hlist hmem =>
      ⟨fun hp => (hdash2 f).trans (hlastwin de f hlist hmem _ hp),
       fun hp => (htop2 f).trans (hlastwin de f hlist hmem _ hp),
       fun hp => (hviz2 f).trans (hlastwin de f hlist hmem _ hp),
       fun hp => (hconf2 f).trans (hlastwin de f hlist hmem _ hp)⟩⟩

/-- Witness for `findAllYamlConfigs_override`: the spec's scenario — the
ancestor config folder `/root/simwrapper` and the target `/root/project`
both contain `dashboard-1.yaml` and `topsheet-1.yaml`; the candidate list
is the ancestor walk's contributions plus the target, and both the
dashboards and the topsheets mappings resolve the shared filenames to the
target-folder paths. -/
theorem findAllYamlConfigs_override_witness :
    findConfigFolders (fun p =>
        if p = str "/" then .ok ⟨[], [], []⟩
        else if p = str "/root/" then .ok ⟨[], [str "simwrapper"], []⟩
        else if p = str "/root/simwrapper" then
          .ok ⟨[str "dashboard-1.yaml", str "topsheet-1.yaml"], [], []⟩
        else if p = str "/root/project" then
          .ok ⟨[str "dashboard-1.yaml", str "topsheet-1.yaml"], [], []⟩
        else .error (str "404")) (str "/root/project") =
      (ancestorPaths (str "/root/project")).flatMap (configFoldersAt (fun p =>
        if p = str "/" then .ok ⟨[], [], []⟩
        else if p = str "/root/" then .ok ⟨[], [str "simwrapper"], []⟩
        else if p = str "/root/simwrapper" then
          .ok ⟨[str "dashboard-1.yaml", str "topsheet-1.yaml"], [], []⟩
        else if p = str "/root/project" then
          .ok ⟨[str "dashboard-1.yaml", str "topsheet-1.yaml"], [], []⟩
        else .error (str "404"))) ++ [str "/root/project"] ∧
    getKey (YamlConfigs.mk
        [(str "dashboard-1.yaml", str "/root/project/dashboard-1.yaml")]
        [(str "topsheet-1.yaml", str "/root/project/topsheet-1.yaml")] [] []).dashboards
        (str "dashboard-1.yaml") =
      some (replaceAllL (str "//") (str "/")
        (str "/root/project" ++ '/' :: str "dashboard-1.yaml")) ∧
    getKey (YamlConfigs.mk
        [(str "dashboard-1.yaml", str "/root/project/dashboard-1.yaml")]
        [(str "topsheet-1.yaml", str "/root/project/topsheet-1.yaml")] [] []).topsheets
        (str "topsheet-1.yaml") =
      some (replaceAllL (str "//") (str "/")
        (str "/root/project" ++ '/' :: str "topsheet-1.yaml")) :=
  ⟨(findAllYamlConfigs_override
      (fun p =>
        if p = str "/" then .ok ⟨[], [], []⟩
        else if p = str "/root/" then .ok ⟨[], [str "simwrapper"], []⟩
        else if p = str "/root/simwrapper" then
          .ok ⟨[str "dashboard-1.yaml", str "topsheet-1.yaml"], [], []⟩
        else if p = str "/root/project" then
          .ok ⟨[str "dashboard-1.yaml", str "topsheet-1.yaml"], [], []⟩
        else .error (str "404"))
      (str "/root/project")
      (YamlConfigs.mk
        [(str "dashboard-1.yaml", str "/root/project/dashboard-1.yaml")]
        [(str "topsheet-1.yaml", str "/root/project/topsheet-1.yaml")] [] [])
      (by decide)).1,
   ((findAllYamlConfigs_override
      (fun p =>
        if p = str "/" then .ok ⟨[], [], []⟩
        else if p = str "/root/" then .ok ⟨[], [str "simwrapper"], []⟩
        else if p = str "/root/simwrapper" then
          .ok ⟨[str "dashboard-1.yaml", str "topsheet-1.yaml"], [], []⟩
        else if p = str "/root/project" then
          .ok ⟨[str "dashboard-1.yaml", str "topsheet-1.yaml"], [], []⟩
        else .error (str "404"))
      (str "/root/project")
      (YamlConfigs.mk
        [(str "dashboard-1.yaml", str "/root/project/dashboard-1.yaml")]
        [(str "topsheet-1.yaml", str "/root/project/topsheet-1.yaml")] [] [])
      (by decide)).2.2.2.2.2
      ⟨[str "dashboard-1.yaml", str "topsheet-1.yaml"], [], []⟩
      (str "dashboard-1.yaml") (by decide) (by decide)).1 (by decide),
   ((findAllYamlConfigs_override
      (fun p =>
        if p = str "/" then .ok ⟨[], [], []⟩
        else if p = str "/root/" then .ok ⟨[], [str "simwrapper"], []⟩
        else if p = str "/root/simwrapper" then
          .ok ⟨[str "dashboard-1.yaml", str "topsheet-1.yaml"], [], []⟩
        else if p = str "/root/project" then
          .ok ⟨[str "dashboard-1.yaml", str "topsheet-1.yaml"], [], []⟩
        else .error (str "404"))
      (str "/root/project")
      (YamlConfigs.mk
        [(str "dashboard-1.yaml", str "/root/project/dashboard-1.yaml")]
        [(str "topsheet-1.yaml", str "/root/project/topsheet-1.yaml")] [] [])
      (by decide)).2.2.2.2.2
      ⟨[str "dashboard-1.yaml", str "topsheet-1.yaml"], [], []⟩
      (str "topsheet-1.yaml") (by decide) (by decide)).2.1 (by decide)⟩

/-! ## C8: the separator invariant of the listing parsers -/

/-- C8 (counterexample): an SVN-dialect body whose href is `sub/dir/` makes
`buildListFromHtml` return the directory name `sub/dir` — a name with an
embedded path separator — refuting the claimed invariant for arbitrary
parsed HTML. -/
theorem buildListFromSVN_embedded_separator :
    buildListFromHtml (str "<ul>\n<li><a href=\"sub/dir/\">sub/dir/</a></li>") =
      ⟨[], [str "sub/dir"], []⟩ ∧
    '/' ∈ str "sub/dir" := by
  decide

theorem classifyEntries_noSlash (names : List Str)
    (h : names.all singleSegmentHref = true) :
    noSlashNames (classifyEntries names) = true := by
  unfold noSlashNames classifyEntries
  rw [Bool.and_eq_true]
  constructor
  · rw [List.all_eq_true]
    intro n hn
    obtain ⟨m, hm, rfl⟩ := List.mem_map.mp hn
    obtain ⟨hmem, hend⟩ := List.mem_filter.mp hm
    have hseg := List.all_eq_true.mp h m hmem
    unfold singleSegmentHref replaceTrailingSlash at hseg
    rw [if_pos hend] at hseg
    exact hseg
  · rw [List.all_eq_true]
    intro n hn
    obtain ⟨hmem, hnend⟩ := List.mem_filter.mp hn
    have hseg := List.all_eq_true.mp h n hmem
    have hfalse : (n.getLast? == some '/') = false := by simpa using hnend
    unfold singleSegmentHref replaceTrailingSlash at hseg
    rw [if_neg (by simp [hfalse])] at hseg
    exact hseg

theorem afterLast_noSlash (d : Str) : (afterLast '/' d).all (fun c => c ≠ '/') = true := by
  rw [List.all_eq_true]
  intro c hc
  unfold afterLast at hc
  rw [List.mem_reverse] at hc
  have := List.mem_takeWhile_imp hc
  simpa using this

theorem buildListFromNpxServe_noSlash (data : Str) :
    noSlashNames (buildListFromNpxServe data) = true := by
  unfold buildListFromNpxServe noSlashNames
  rw [Bool.and_eq_true]
  constructor <;>
  · rw [List.all_eq_true]
    intro n hn
    obtain ⟨m, _, rfl⟩ := List.mem_map.mp hn
    exact afterLast_noSlash m

theorem parseHtmlAnchorStep_noSlash (acc : List Str × List Str) (a : Option Str × Str)
    (hacc : noSlashPair acc = true)
    (ha : (match a.1 with | some h => singleSegmentHref h | none => true) = true) :
    noSlashPair (parseHtmlAnchorStep acc a) = true := by
  unfold parseHtmlAnchorStep
  split
  · exact hacc
  · rcases haa : a.1 with _ | h
    · exact hacc
    · rw [haa] at ha
      dsimp only at ha ⊢
      unfold noSlashPair at hacc ⊢
      rw [Bool.and_eq_true] at hacc
      obtain ⟨hf, hd⟩ := hacc
      split
      · split
        · next hboth =>
          dsimp only
          rw [Bool.and_eq_true, List.all_append]
          have ha2 : (replaceTrailingSlash h).all (fun c => decide (c ≠ '/')) = true := ha
          exact ⟨hf, by simp only [Bool.and_eq_true]; exact ⟨hd, by simpa using ha2⟩⟩
        · split
          · next hneither =>
            dsimp only
            rw [Bool.and_eq_true, List.all_append]
            rw [Bool.and_eq_true] at hneither
            have hne : (h.getLast? == some '/') = false := by
              have hx := hneither.1
              simpa using hx
            have ha2 : (replaceTrailingSlash h).all (fun c => decide (c ≠ '/')) = true := ha
            unfold replaceTrailingSlash at ha2
            rw [if_neg (by simp [hne])] at ha2
            refine ⟨?_, hd⟩
            rw [Bool.and_eq_true]
            exact ⟨hf, by simpa using ha2⟩
          · rw [Bool.and_eq_true]; exact ⟨hf, hd⟩
      · rw [Bool.and_eq_true]; exact ⟨hf, hd⟩

theorem parseHtml_foldl_noSlash (anchors : List (Option Str × Str)) :
    ∀ acc, noSlashPair acc = true →
      (anchors.all (fun a =>
        match a.1 with | some h => singleSegmentHref h | none => true)) = true →
      noSlashPair (anchors.foldl parseHtmlAnchorStep acc) = true := by
  induction anchors with
  | nil => intro acc hacc _; exact hacc
  | cons a t ih =>
    intro acc hacc hall
    rw [List.all_cons, Bool.and_eq_true] at hall
    rw [List.foldl_cons]
    exact ih _ (parseHtmlAnchorStep_noSlash acc a hacc hall.1) hall.2

/-- C8 (amended): a single trailing separator is stripped from every
extracted directory name, but names are otherwise taken verbatim from the
extracted href values — so the invariant "directory names carry no trailing
separator and no name contains an embedded separator" holds exactly when
every extracted name is a single segment apart from at most one trailing
separator (and then the names contain no separator at all).  Only the Node
static-server dialect, which reduces names to their final path segment,
satisfies the invariant unconditionally. -/
theorem parsers_separator_invariant (data : Str) (anchors : List (Option Str × Str)) :
    (((splitOnChar '\n' data).filterMap svnLineName).all singleSegmentHref = true →
      noSlashNames (buildListFromSVN data) = true) ∧
    (((splitOnChar '\n' data).filterMap swsLineName).all singleSegmentHref = true →
      noSlashNames (buildListFromSimpleWebServer data) = true) ∧
    noSlashNames (buildListFromNpxServe data) = true ∧
    (((splitOnChar '\n' data).filterMap apacheLineName).all singleSegmentHref = true →
      noSlashNames (buildListFromApache24 data) = true) ∧
    (((splitOnChar '\n' data).filterMap nginxLineName).all singleSegmentHref = true →
      noSlashNames (buildListFromNGINX data) = true) ∧
    ((anchors.all (fun a =>
        match a.1 with | some h => singleSegmentHref h | none => true)) = true →
      noSlashPair (parseHtmlDirectoryListing anchors) = true) :=
  ⟨fun h => classifyEntries_noSlash _ h,
   fun h => classifyEntries_noSlash _ h,
   buildListFromNpxServe_noSlash data,
   fun h => classifyEntries_noSlash _ h,
   fun h => classifyEntries_noSlash _ h,
   fun h => parseHtml_foldl_noSlash anchors ([], []) rfl h⟩

/-- Witness for `parsers_separator_invariant` at a concrete listing body
with single-segment hrefs and concrete anchors. -/
theorem parsers_separator_invariant_witness :
    noSlashNames (buildListFromSVN
      (str "<li><a href=\"plans/\">plans/</a>\n<li><a href=\"a.csv\">a.csv</a>")) = true ∧
    noSlashNames (buildListFromNpxServe (str "x")) = true ∧
    noSlashPair (parseHtmlDirectoryListing
      [(some (str "plans/"), str "plans/"), (some (str "a.csv"), str "a.csv")]) = true :=
  ⟨(parsers_separator_invariant
      (str "<li><a href=\"plans/\">plans/</a>\n<li><a href=\"a.csv\">a.csv</a>") []).1
      (by decide),
   (parsers_separator_invariant (str "x") []).2.2.1,
   (parsers_separator_invariant (str "")
      [(some (str "plans/"), str "plans/"), (some (str "a.csv"), str "a.csv")]).2.2.2.2.2
      (by decide)⟩

/-! ## C9: wildcard expansion in the xy-time worker -/

/-- C9 (counterexample): with two files matching `file*.csv`, the inner
`try` body raises an error naming both candidates, but `step1PrepareFetch`'s
catch block replaces it — the error that actually escapes is
`LOAD FAIL! <filepath>` and names neither candidate, refuting the claim
that the thrown error names the candidate files. -/
theorem step1PrepareFetch_error_omits_candidates :
    step1Inner (H := Unit)
      (fun p => if p = str "/data/" then .ok ⟨[str "file1.csv", str "file2.csv"], [], []⟩
                else .error (str "404"))
      id [] (fun files _ => files.filter (fun f =>
        (str "file").isPrefixOf f && List.isSuffixOf (str ".csv") f))
      (str "/data/file*.csv") (str "http://h") =
      .error (str "Error: More than one file matched \"file*.csv\": file1.csv,file2.csv") ∧
    step1PrepareFetch (H := Unit)
      (fun p => if p = str "/data/" then .ok ⟨[str "file1.csv", str "file2.csv"], [], []⟩
                else .error (str "404"))
      id [] (fun files _ => files.filter (fun f =>
        (str "file").isPrefixOf f && List.isSuffixOf (str ".csv") f))
      (str "/data/file*.csv") (str "http://h") =
      .error (str "Error: LOAD FAIL! /data/file*.csv") ∧
    ¬ (str "file1.csv") <:+: (str "Error: LOAD FAIL! /data/file*.csv") ∧
    ¬ (str "file2.csv") <:+: (str "Error: LOAD FAIL! /data/file*.csv") := by
  decide

/-- C9 (amended): on a wildcard filepath the worker lists the containing
folder; zero glob matches raise a "No files matched" error and more than
one match raises an error naming every candidate — both of which the
function's catch-all converts into the escaping `LOAD FAIL! <filepath>`
error — while exactly one match expands the path to that single file and
returns the joined URL. -/
theorem step1PrepareFetch_wildcard {H : Type}
    (backend : Str → Except Str (DirectoryEntry H)) (sortFn : List Str → List Str)
    (cache : Cache H) (findGlob : List Str → Str → List Str) (filepath baseURL : Str)
    (hwild : '*' ∈ filepath ∨ '?' ∈ filepath) (de : DirectoryEntry H)
    (hdir : (getDirectory backend sortFn cache (zSubfolderOf filepath)).1 = .ok de) :
    (findGlob de.files (zDatasetOf filepath) = [] →
      step1Inner backend sortFn cache findGlob filepath baseURL =
        .error (str "Error: No files matched \"" ++ zDatasetOf filepath ++ str "\"") ∧
      step1PrepareFetch backend sortFn cache findGlob filepath baseURL =
        .error (str "Error: LOAD FAIL! " ++ filepath)) ∧
    (∀ f g t, findGlob de.files (zDatasetOf filepath) = f :: g :: t →
      step1Inner backend sortFn cache findGlob filepath baseURL =
        .error (str "Error: More than one file matched \"" ++ zDatasetOf filepath ++
          str "\": " ++ List.intercalate (str ",") (f :: g :: t)) ∧
      step1PrepareFetch backend sortFn cache findGlob filepath baseURL =
        .error (str "Error: LOAD FAIL! " ++ filepath)) ∧
    (∀ f, findGlob de.files (zDatasetOf filepath) = [f] →
      step1PrepareFetch backend sortFn cache findGlob filepath baseURL =
        .ok (baseURL ++ '/' :: (zSubfolderOf filepath ++ '/' :: f))) := by
  refine ⟨?_, ?_, ?_⟩
  · intro hz
    have hi : step1Inner backend sortFn cache findGlob filepath baseURL =
        .error (str "Error: No files matched \"" ++ zDatasetOf filepath ++ str "\"") := by
      simp only [step1Inner, if_pos hwild, hdir, hz]
      simp
    refine ⟨hi, ?_⟩
    unfold step1PrepareFetch
    rw [hi]
  · intro f g t hm
    have hi : step1Inner backend sortFn cache findGlob filepath baseURL =
        .error (str "Error: More than one file matched \"" ++ zDatasetOf filepath ++
          str "\": " ++ List.intercalate (str ",") (f :: g :: t)) := by
      simp only [step1Inner, if_pos hwild, hdir, hm]
      simp
    refine ⟨hi, ?_⟩
    unfold step1PrepareFetch
    rw [hi]
  · intro f hm
    have hi : step1Inner backend sortFn cache findGlob filepath baseURL =
        .ok (baseURL ++ '/' :: (zSubfolderOf filepath ++ '/' :: f)) := by
      simp only [step1Inner, if_pos hwild, hdir, hm]
      simp
    unfold step1PrepareFetch
    rw [hi]

/-- Witness for `step1PrepareFetch_wildcard`: a single match expands the
wildcard path to the matched file. -/
theorem step1PrepareFetch_wildcard_witness :
    step1PrepareFetch (H := Unit)
      (fun p => if p = str "/data/" then .ok ⟨[str "file1.csv"], [], []⟩
                else .error (str "404"))
      id [] (fun files _ => files) (str "/data/file?.csv") (str "http://h") =
      .ok (str "http://h" ++ '/' :: (zSubfolderOf (str "/data/file?.csv") ++
        '/' :: str "file1.csv")) :=
  (step1PrepareFetch_wildcard
    (fun p => if p = str "/data/" then .ok ⟨[str "file1.csv"], [], []⟩
              else .error (str "404"))
    id [] (fun files _ => files) (str "/data/file?.csv") (str "http://h")
    (by decide) ⟨[str "file1.csv"], [], []⟩ (by decide)).2.2 (str "file1.csv") (by decide)

/-! ## C10: permission denial yields an empty listing -/

/-- C10: `getDirectoryFromHandle` returns an empty `DirectoryEntry` (empty
files, dirs and handles) rather than throwing, both when no folder handle
is configured and when read permission is not already granted and the
interactive grant (a store is configured) resolves to a denial. -/
theorem getDirectoryFromHandle_denied_empty :
    (∀ (storeConfigured : Bool) (queryStatus : Str) (userGrant : Bool) (path : Str),
      getDirectoryFromHandle none storeConfigured queryStatus userGrant path =
        .ok ⟨[], [], []⟩) ∧
    (∀ (root : FSNode) (queryStatus : Str) (path : Str), queryStatus ≠ str "granted" →
      getDirectoryFromHandle (some root) true queryStatus false path =
        .ok ⟨[], [], []⟩) := by
  constructor
  · intro _ _ _ _; rfl
  · intro root qs path hqs
    unfold getDirectoryFromHandle getChromePermission
    simp [hqs]

/-- Witness for `getDirectoryFromHandle_denied_empty`: a denied interactive
grant on a configured handle, and a missing handle, both yield the empty
listing. -/
theorem getDirectoryFromHandle_denied_empty_witness :
    getDirectoryFromHandle (some (.dir [(str "a", .file)])) true (str "prompt") false
      (str "/a/b") = .ok ⟨[], [], []⟩ ∧
    getDirectoryFromHandle none false (str "granted") true (str "/x") = .ok ⟨[], [], []⟩ :=
  ⟨getDirectoryFromHandle_denied_empty.2 (.dir [(str "a", .file)]) (str "prompt")
      (str "/a/b") (by decide),
   getDirectoryFromHandle_denied_empty.1 false (str "granted") true (str "/x")⟩
